import Mathlib

/-!
Verification of the atreugo request-routing and middleware-dispatch engine
against its natural-language specification.

The repository source in scope declares the data model (`types.go`):
`Atreugo` (embedding `*Router`), `Config`, `RequestCtx` (with the `next`
and `skipView` flags), `Router` (with `routerMutable`, `handleOPTIONS`),
`Path`, `View`, `Middleware` and `Middlewares { Before, After, Skip }`.
The behavioural functions (middleware composition, registration, freeze,
dispatch) are not part of the provided source, so they are modelled from
the specification, as marked on each definition.

Go middleware values are compared by identity; we model a `Middleware`
as a natural-number identifier.
-/

/-- A middleware identity (Go compares middlewares by function identity). -/
abbrev Middleware := Nat

/-- The `Middlewares` collection from `types.go`: ordered before- and
after-lists and a skip-list of middleware identities. -/
structure Middlewares where
  Before : List Middleware
  After : List Middleware
  Skip : List Middleware
deriving DecidableEq

/-- Modelled from the spec (§4.2, the composition algorithm is not in the
provided source): the union of the skip-sets of every chain in the
composed sequence, outermost ancestor first. -/
def skipUnion (chains : List Middlewares) : List Middleware :=
  (chains.map Middlewares.Skip).flatten

/-- Modelled from the spec (§4.2): the effective before-sequence is the
concatenation of each chain's before-list in outer-to-inner order, with
any middleware present in any chain's skip-set removed. -/
def effectiveBefore (chains : List Middlewares) : List Middleware :=
  ((chains.map Middlewares.Before).flatten).filter
    (fun m => !((skipUnion chains).contains m))

/-- Modelled from the spec (§4.2): the effective after-sequence is the
concatenation of each chain's after-list in inner-to-outer order, with
any middleware present in any chain's skip-set removed. -/
def effectiveAfter (chains : List Middlewares) : List Middleware :=
  ((chains.reverse.map Middlewares.After).flatten).filter
    (fun m => !((skipUnion chains).contains m))

/-- Claim C1: the effective before-sequence is the outer-to-inner
concatenation of the before-lists with every skip-set member removed;
in particular for global before [A,B], group before [C], route before [D]
and route skip-set containing B, the result is exactly [A, C, D]. -/
theorem c1_effective_before (A B C D : Middleware)
    (hA : A ≠ B) (hC : C ≠ B) (hD : D ≠ B) :
    effectiveBefore
        [⟨[A, B], [], []⟩, ⟨[C], [], []⟩, ⟨[D], [], [B]⟩] = [A, C, D]
    ∧ ∀ (chains : List Middlewares) (m : Middleware),
        m ∈ skipUnion chains → m ∉ effectiveBefore chains := by
  constructor
  · simp [effectiveBefore, skipUnion, hA, hC, hD]
  · intro chains m hm hmem
    have := List.of_mem_filter hmem
    simp at this
    exact this hm

/-- Witness for C1 at concrete middleware identities. -/
theorem c1_effective_before_witness :
    effectiveBefore
        [⟨[0, 1], [], []⟩, ⟨[2], [], []⟩, ⟨[3], [], [1]⟩] = [0, 2, 3]
    ∧ ∀ (chains : List Middlewares) (m : Middleware),
        m ∈ skipUnion chains → m ∉ effectiveBefore chains :=
  c1_effective_before 0 1 2 3 (by decide) (by decide) (by decide)

/-- Claim C2: the effective after-sequence is the inner-to-outer
concatenation of the after-lists with skip-set members removed; in
particular for global after [X], group after [Y], route after [Z] the
result is exactly [Z, Y, X]. -/
theorem c2_effective_after (X Y Z : Middleware) :
    effectiveAfter
        [⟨[], [X], []⟩, ⟨[], [Y], []⟩, ⟨[], [Z], []⟩] = [Z, Y, X]
    ∧ ∀ (chains : List Middlewares) (m : Middleware),
        m ∈ skipUnion chains → m ∉ effectiveAfter chains := by
  constructor
  · simp [effectiveAfter, skipUnion]
  · intro chains m hm hmem
    have := List.of_mem_filter hmem
    simp at this
    exact this hm

/-!
Per-request execution (spec §4.2, execution algorithm).  A middleware is
run by consulting a behaviour map from middleware identity to an outcome:
it may succeed (`next` stays true), request early termination (it leaves
without calling `ctx.Next`, modelled as `stop`), or return an error.
Errors are identified by natural numbers.
-/

/-- Outcome of running one middleware on a request. -/
inductive MWOutcome where
  | ok : MWOutcome
  | stop : MWOutcome
  | fail : Nat → MWOutcome
deriving DecidableEq

/-- Modelled from the spec (§4.2 step 1, the execution loop is not in the
provided source): run the before-sequence in order; on an error or an
early-termination request, abort the remaining before-middlewares.
Returns the middlewares actually executed, the error if any, and whether
the chain completed (so the handler may run). -/
def runBefore (beh : Middleware → MWOutcome) :
    List Middleware → List Middleware × Option Nat × Bool
  | [] => ([], none, true)
  | m :: ms =>
    match beh m with
    | .ok =>
      let r := runBefore beh ms
      (m :: r.1, r.2.1, r.2.2)
    | .stop => ([m], none, false)
    | .fail e => ([m], some e, false)

/-- Modelled from the spec (§4.2 step 3): run the after-sequence in order
unconditionally, collecting the first error encountered.  Returns the
middlewares executed and that first error, if any. -/
def runAfter (beh : Middleware → MWOutcome) :
    List Middleware → List Middleware × Option Nat
  | [] => ([], none)
  | m :: ms =>
    let r := runAfter beh ms
    match beh m with
    | .fail e => (m :: r.1, some e)
    | _ => (m :: r.1, r.2)

/-- Trace of one request through the composed pipeline. -/
structure ExecTrace where
  beforeRun : List Middleware
  handlerRan : Bool
  afterRun : List Middleware
  errToHandler : Option Nat
deriving DecidableEq

/-- Modelled from the spec (§4.2): execute the effective before-sequence,
then the handler unless a before-middleware aborted, then the effective
after-sequence unconditionally; the first error encountered anywhere is
the one passed to the error handler. -/
def execute (beh : Middleware → MWOutcome) (handlerErr : Option Nat)
    (bs as : List Middleware) : ExecTrace :=
  let rb := runBefore beh bs
  let herr := if rb.2.2 then handlerErr else none
  let ra := runAfter beh as
  { beforeRun := rb.1
    handlerRan := rb.2.2
    afterRun := ra.1
    errToHandler := (rb.2.1.or herr).or ra.2 }

/-- After-middlewares all execute, whatever their outcomes. -/
theorem runAfter_fst (beh : Middleware → MWOutcome) (as : List Middleware) :
    (runAfter beh as).1 = as := by
  induction as with
  | nil => rfl
  | cons m ms ih =>
    simp only [runAfter]
    cases beh m <;> simp [ih]

/-- A before-chain whose middlewares all succeed runs in full. -/
theorem runBefore_all_ok (beh : Middleware → MWOutcome)
    (bs : List Middleware) (h : ∀ m ∈ bs, beh m = .ok) :
    runBefore beh bs = (bs, none, true) := by
  induction bs with
  | nil => rfl
  | cons m ms ih =>
    have hm : beh m = .ok := h m (List.mem_cons_self m ms)
    have ihe := ih (fun x hx => h x (List.mem_cons_of_mem m hx))
    simp [runBefore, hm, ihe]

/-- Claim C3: if a before-middleware errors or requests early termination
(every earlier one having succeeded), the remaining before-middlewares
and the handler do not run, the whole after-sequence still runs in its
composed order, and the first error encountered is the one handed to the
error handler. -/
theorem c3_before_abort (beh : Middleware → MWOutcome)
    (handlerErr : Option Nat) (pre post as : List Middleware)
    (m : Middleware) (hpre : ∀ p ∈ pre, beh p = .ok) (hm : beh m ≠ .ok) :
    (execute beh handlerErr (pre ++ m :: post) as).beforeRun = pre ++ [m]
    ∧ (execute beh handlerErr (pre ++ m :: post) as).handlerRan = false
    ∧ (execute beh handlerErr (pre ++ m :: post) as).afterRun = as
    ∧ (execute beh handlerErr (pre ++ m :: post) as).errToHandler =
        (match beh m with
         | .fail e => some e
         | _ => (runAfter beh as).2) := by
  have hrb : runBefore beh (pre ++ m :: post) =
      (pre ++ [m],
       (match beh m with | .fail e => some e | _ => none), false) := by
    induction pre with
    | nil =>
      cases hb : beh m with
      | ok => exact absurd hb hm
      | stop => simp [runBefore, hb]
      | fail e => simp [runBefore, hb]
    | cons p ps ih =>
      have hp : beh p = .ok := hpre p (List.mem_cons_self p ps)
      have ihe := ih (fun x hx => hpre x (List.mem_cons_of_mem p hx))
      simp [runBefore, hp, ihe]
  refine ⟨?_, ?_, ?_, ?_⟩
  · simp [execute, hrb]
  · simp [execute, hrb]
  · simp [execute, hrb, runAfter_fst]
  · cases hb : beh m with
    | ok => exact absurd hb hm
    | stop => simp [execute, hrb, hb, Option.or]
    | fail e => simp [execute, hrb, hb, Option.or]

/-- Witness for C3: middleware 1 fails with error 7 after middleware 0
succeeds; middleware 2 is not reached, the after-chain [3, 4] runs in
full, and error 7 reaches the error handler. -/
theorem c3_before_abort_witness :
    (execute
        (fun m => if m = 1 then .fail 7 else .ok) (some 9)
        ([0] ++ 1 :: [2]) [3, 4]).beforeRun = [0] ++ [1]
    ∧ (execute
        (fun m => if m = 1 then .fail 7 else .ok) (some 9)
        ([0] ++ 1 :: [2]) [3, 4]).handlerRan = false
    ∧ (execute
        (fun m => if m = 1 then .fail 7 else .ok) (some 9)
        ([0] ++ 1 :: [2]) [3, 4]).afterRun = [3, 4]
    ∧ (execute
        (fun m => if m = 1 then .fail 7 else .ok) (some 9)
        ([0] ++ 1 :: [2]) [3, 4]).errToHandler =
        (match (fun (m : Middleware) => if m = 1 then .fail 7 else .ok) 1 with
         | MWOutcome.fail e => some e
         | _ => (runAfter (fun m => if m = 1 then .fail 7 else .ok) [3, 4]).2) :=
  c3_before_abort (fun m => if m = 1 then .fail 7 else .ok) (some 9)
    [0] [2] [3, 4] 1 (by decide) (by decide)

/-!
The Router tree (spec §3, §4.1).  A `Router` node carries a prefix
segment, the `routerMutable` flag from `types.go` (stored here as
`frozenB`, the negation), an ordered list of registered (method, pattern)
routes, and its child Routers.  Registration, grouping and freezing are
not in the provided source and are modelled from the spec.
-/

/-- A node of the Router tree: prefix, frozen flag, (method, pattern)
routes registered on this node, and child Routers. -/
inductive RTree where
  | node : String → Bool → List (String × String) → List RTree → RTree

/-- The node's own prefix segment. -/
def RTree.pfx : RTree → String
  | .node p _ _ _ => p

/-- Whether the node is frozen (the negation of `routerMutable`). -/
def RTree.frozenB : RTree → Bool
  | .node _ fz _ _ => fz

/-- The node's child Routers. -/
def RTree.children : RTree → List RTree
  | .node _ _ _ cs => cs

mutual

/-- Modelled from the spec (§3, §4.1; not in the provided source): all
fully-qualified (method, pattern) routes in the tree, each route's
pattern prefixed by the concatenation of its ancestors' prefixes. -/
def fullRoutes (pre : String) : RTree → List (String × String)
  | .node p _ rs cs =>
    rs.map (fun r => (r.1, pre ++ p ++ r.2)) ++ fullRoutesList (pre ++ p) cs

/-- Helper of `fullRoutes` over a list of children. -/
def fullRoutesList (pre : String) : List RTree → List (String × String)
  | [] => []
  | c :: cs => fullRoutes pre c ++ fullRoutesList pre cs

end

/-- Locate the Router at a child-index path, returning it together with
its fully-qualified prefix. -/
def findAt : String → RTree → List Nat → Option (RTree × String)
  | pre, .node p fz rs cs, [] => some (.node p fz rs cs, pre ++ p)
  | pre, .node p _ _ cs, i :: is =>
    match cs[i]? with
    | some c => findAt (pre ++ p) c is
    | none => none

/-- Replace the subtree at a child-index path by applying `f` to it. -/
def updateAt (f : RTree → RTree) : RTree → List Nat → RTree
  | t, [] => f t
  | .node p fz rs cs, i :: is =>
    match cs[i]? with
    | some c => .node p fz rs (cs.set i (updateAt f c is))
    | none => .node p fz rs cs

/-- Append a route to a node. -/
def addRoute (method pat : String) : RTree → RTree
  | .node p fz rs cs => .node p fz (rs ++ [(method, pat)]) cs

/-- Append a fresh mutable child Router to a node. -/
def addChild (gp : String) : RTree → RTree
  | .node p fz rs cs => .node p fz rs (cs ++ [.node gp false [] []])

/-- Registration-time errors (spec §4.1, §7). -/
inductive RegError where
  | badPath
  | emptyPattern
  | frozenErr
  | duplicate
deriving DecidableEq

/-- Modelled from the spec (§4.1 `register`; not in the provided source):
registration fails if the pattern is empty, if the target Router is
frozen, or if an identical (method, fully-qualified pattern) already
exists anywhere in the tree; otherwise the route is appended. -/
def register (root : RTree) (path : List Nat) (method pat : String) :
    Except RegError RTree :=
  match findAt "" root path with
  | some (t, fullPre) =>
    if pat = "" then .error .emptyPattern
    else if t.frozenB then .error .frozenErr
    else if (method, fullPre ++ pat) ∈ fullRoutes "" root then
      .error .duplicate
    else .ok (updateAt (addRoute method pat) root path)
  | none => .error .badPath

/-- Modelled from the spec (§4.1 `group`; not in the provided source):
creating a child Router fails if the parent is frozen. -/
def group (root : RTree) (path : List Nat) (gp : String) :
    Except RegError RTree :=
  match findAt "" root path with
  | some (t, _) =>
    if t.frozenB then .error .frozenErr
    else .ok (updateAt (addChild gp) root path)
  | none => .error .badPath

mutual

/-- Modelled from the spec (§4.1 `freeze`; not in the provided source):
mark every Router in the tree immutable. -/
def freezeAll : RTree → RTree
  | .node p _ rs cs => .node p true rs (freezeAllList cs)

/-- Helper of `freezeAll` over a list of children. -/
def freezeAllList : List RTree → List RTree
  | [] => []
  | c :: cs => freezeAll c :: freezeAllList cs

end

mutual

/-- Whether every Router in the tree is frozen. -/
def allFrozen : RTree → Bool
  | .node _ fz _ cs => fz && allFrozenList cs

/-- Helper of `allFrozen` over a list of children. -/
def allFrozenList : List RTree → Bool
  | [] => true
  | c :: cs => allFrozen c && allFrozenList cs

end

/-! Every Router of a frozen tree is frozen, and freezing is
idempotent. -/

mutual

theorem allFrozen_freezeAll (t : RTree) : allFrozen (freezeAll t) = true := by
  cases t with
  | node p fz rs cs =>
    simp [freezeAll, allFrozen, allFrozenList_freezeAllList cs]

theorem allFrozenList_freezeAllList (cs : List RTree) :
    allFrozenList (freezeAllList cs) = true := by
  cases cs with
  | nil => rfl
  | cons c cs =>
    simp [freezeAllList, allFrozenList, allFrozen_freezeAll c,
      allFrozenList_freezeAllList cs]

end

mutual

theorem freezeAll_idem (t : RTree) : freezeAll (freezeAll t) = freezeAll t := by
  cases t with
  | node p fz rs cs =>
    simp [freezeAll, freezeAllList_idem cs]

theorem freezeAllList_idem (cs : List RTree) :
    freezeAllList (freezeAllList cs) = freezeAllList cs := by
  cases cs with
  | nil => rfl
  | cons c cs =>
    simp [freezeAllList, freezeAll_idem c, freezeAllList_idem cs]

end

/-- Indexing into a frozen child list is freezing the indexed child. -/
theorem freezeAllList_getElem (cs : List RTree) (i : Nat) :
    (freezeAllList cs)[i]? = cs[i]?.map freezeAll := by
  induction cs generalizing i with
  | nil => simp [freezeAllList]
  | cons c cs ih =>
    cases i with
    | zero => simp [freezeAllList]
    | succ j => simp [freezeAllList, ih]

/-- Any Router located inside a frozen tree is frozen. -/
theorem findAt_freezeAll (path : List Nat) (pre : String) (t u : RTree)
    (s : String) (h : findAt pre (freezeAll t) path = some (u, s)) :
    u.frozenB = true := by
  induction path generalizing pre t with
  | nil =>
    cases t with
    | node p fz rs cs =>
      simp [freezeAll, findAt] at h
      rw [← h.1]
      rfl
  | cons i is ih =>
    cases t with
    | node p fz rs cs =>
      simp only [freezeAll, findAt, freezeAllList_getElem] at h
      cases hc : cs[i]? with
      | none => simp [hc] at h
      | some c =>
        rw [hc] at h
        exact ih (pre ++ p) c h

/-- Claim C4: registration fails exactly when the pattern is empty, the
target Router is frozen, or the same (method, fully-qualified pattern)
already exists anywhere in the tree; in particular a first registration
of GET /a succeeds and a second one anywhere in the tree fails with a
duplicate error at registration time. -/
theorem c4_register_correct :
    (∀ (root : RTree) (path : List Nat) (method pat : String)
        (u : RTree) (fullPre : String),
        findAt "" root path = some (u, fullPre) →
        ((∃ e, register root path method pat = Except.error e) ↔
          (pat = "" ∨ u.frozenB = true
            ∨ (method, fullPre ++ pat) ∈ fullRoutes "" root)))
    ∧ register (RTree.node "" false [] [RTree.node "/" false [] []]) []
        "GET" "/a"
        = Except.ok
            (RTree.node "" false [("GET", "/a")] [RTree.node "/" false [] []])
    ∧ register
        (RTree.node "" false [("GET", "/a")] [RTree.node "/" false [] []])
        [0] "GET" "a" = Except.error RegError.duplicate := by
  refine ⟨?_, ?_, ?_⟩
  · intro root path method pat u fullPre h
    simp only [register, h]
    split_ifs with h1 h2 h3
    · simp [h1]
    · simp [h2]
    · simp [h3]
    · simp [h1, h2, h3]
  · simp [register, findAt, fullRoutes, fullRoutesList, updateAt, addRoute,
      RTree.frozenB]
  · simp [register, findAt, fullRoutes, fullRoutesList, updateAt, addRoute,
      RTree.frozenB]

/-- Witness for C4 at a concrete tree: on a fresh mutable root, the
failure condition for registering GET with the empty pattern is the
stated disjunction. -/
theorem c4_register_correct_witness :
    (∃ e, register (RTree.node "" false [] []) [] "GET" ""
        = Except.error e) ↔
      ("" = "" ∨ (RTree.node "" false [] []).frozenB = true
        ∨ ("GET", ("" ++ "") ++ "")
            ∈ fullRoutes "" (RTree.node "" false [] [])) :=
  c4_register_correct.1 (RTree.node "" false [] []) [] "GET" ""
    (RTree.node "" false [] []) ("" ++ "") (by simp [findAt])

/-- Claim C5: freeze marks every Router in the tree immutable and is
idempotent; on the frozen tree every subsequent registration and every
child-Router creation fails, so the frozen tree is preserved by all
subsequent operations. -/
theorem c5_freeze_correct (t : RTree) :
    allFrozen (freezeAll t) = true
    ∧ freezeAll (freezeAll t) = freezeAll t
    ∧ ∀ (path : List Nat) (method pat gp : String),
        (∃ e, register (freezeAll t) path method pat = Except.error e)
        ∧ (∃ e, group (freezeAll t) path gp = Except.error e) := by
  refine ⟨allFrozen_freezeAll t, freezeAll_idem t, ?_⟩
  intro path method pat gp
  cases hf : findAt "" (freezeAll t) path with
  | none =>
    constructor
    · exact ⟨.badPath, by simp [register, hf]⟩
    · exact ⟨.badPath, by simp [group, hf]⟩
  | some us =>
    have hu : us.1.frozenB = true :=
      findAt_freezeAll path "" t us.1 us.2 (by rw [hf])
    constructor
    · by_cases hp : pat = ""
      · exact ⟨.emptyPattern, by simp [register, hf, hp]⟩
      · exact ⟨.frozenErr, by simp [register, hf, hp, hu]⟩
    · exact ⟨.frozenErr, by simp [group, hf, hu]⟩

/-!
Dispatch (spec §4.1).  Pattern matching itself is delegated to the
external path-matcher (out of scope per §1); a pattern is a list of
segments, each a literal or a named parameter, and a concrete path is a
list of literal segments.
-/

/-- One segment of a registered pattern: a literal or a named
parameter such as the id in /users/\x7bid\x7d. -/
inductive Seg where
  | lit : String → Seg
  | param : String → Seg
deriving DecidableEq

/-- Whether one pattern segment matches one concrete path segment. -/
def segMatches : Seg → String → Bool
  | .lit s, q => s == q
  | .param _, _ => true

/-- Whether a whole pattern matches a whole concrete path. -/
def patternMatches (ps : List Seg) (qs : List String) : Bool :=
  ps.length == qs.length
    && (List.zip ps qs).all (fun pq => segMatches pq.1 pq.2)

/-- Modelled from the spec (§4.1 dispatch; not in the provided source):
the methods registered for a path, with OPTIONS added when automatic
OPTIONS handling is on. -/
def allowedMethods (routes : List (String × List Seg))
    (path : List String) (auto : Bool) : List String :=
  let ms :=
    ((routes.filter (fun r => patternMatches r.2 path)).map Prod.fst).dedup
  if auto && !(ms.contains "OPTIONS") then ms ++ ["OPTIONS"] else ms

/-- Outcome of resolving a (method, path) against the route table. -/
inductive DispatchResult where
  | found : String → List Seg → DispatchResult
  | methodNotAllowed : List String → DispatchResult
  | notFound : DispatchResult
deriving DecidableEq

/-- Modelled from the spec (§4.1 dispatch; not in the provided source):
resolve to the first route whose method and pattern match; otherwise
MethodNotAllowed when some other method matches the path, else
NotFound. -/
def dispatch (routes : List (String × List Seg)) (auto : Bool)
    (method : String) (path : List String) : DispatchResult :=
  match routes.find? (fun r => r.1 == method && patternMatches r.2 path) with
  | some r => .found r.1 r.2
  | none =>
    if (routes.filter (fun r => patternMatches r.2 path)).isEmpty then
      .notFound
    else .methodNotAllowed (allowedMethods routes path auto)

/-- The observable response: the Allow header (if set), the status code,
and which configured handler was invoked. -/
structure Response where
  allowHeader : Option String
  status : Nat
  invoked : String
deriving DecidableEq

/-- Modelled from the spec (§4.1 and the `MethodNotAllowedView` doc
comment in `types.go`): on MethodNotAllowed the Allow header listing the
allowed methods is set before the configured handler runs. -/
def serve (routes : List (String × List Seg)) (auto : Bool)
    (method : String) (path : List String) : Response :=
  match dispatch routes auto method path with
  | .found _ _ => ⟨none, 200, "view"⟩
  | .notFound => ⟨none, 404, "notFoundView"⟩
  | .methodNotAllowed allow =>
    ⟨some (String.intercalate ", " allow), 405, "methodNotAllowedView"⟩

/-- Claim C7: whenever dispatch resolves to MethodNotAllowed, the
response passed to the configured method-not-allowed handler carries an
Allow header listing every method registered for that path; dispatching
POST /users/42 with only GET /users/\x7bid\x7d registered yields
method-not-allowed with Allow: GET, OPTIONS. -/
theorem c7_allow_header :
    (∀ (routes : List (String × List Seg)) (auto : Bool)
        (method : String) (path : List String) (allow : List String),
        dispatch routes auto method path = .methodNotAllowed allow →
        serve routes auto method path
            = ⟨some (String.intercalate ", " allow), 405,
                "methodNotAllowedView"⟩
          ∧ allow = allowedMethods routes path auto)
    ∧ serve [("GET", [Seg.lit "users", Seg.param "id"])] true
        "POST" ["users", "42"]
        = ⟨some "GET, OPTIONS", 405, "methodNotAllowedView"⟩ := by
  constructor
  · intro routes auto method path allow h
    constructor
    · simp [serve, h]
    · simp only [dispatch] at h
      cases hf : routes.find?
          (fun r => r.1 == method && patternMatches r.2 path) with
      | some r => rw [hf] at h; simp at h
      | none =>
        rw [hf] at h
        split_ifs at h with h1
        all_goals simp at h
        exact h.symm
  · decide

/-- Witness for C7 at the POST /users/42 example. -/
theorem c7_allow_header_witness :
    serve [("GET", [Seg.lit "users", Seg.param "id"])] true
        "POST" ["users", "42"]
        = ⟨some (String.intercalate ", " ["GET", "OPTIONS"]), 405,
            "methodNotAllowedView"⟩
      ∧ ["GET", "OPTIONS"]
          = allowedMethods [("GET", [Seg.lit "users", Seg.param "id"])]
              ["users", "42"] true :=
  c7_allow_header.1 [("GET", [Seg.lit "users", Seg.param "id"])] true
    "POST" ["users", "42"] ["GET", "OPTIONS"] (by decide)

/-!
Automatic OPTIONS handling (spec §4.1): computed once at freeze time
from the then-immutable method set of every path, answered without
invoking user middleware.  The `handleOPTIONS` flag is the field of the
same name on `Router` in `types.go`.
-/

/-- Modelled from the spec (§4.1; not in the provided source): the Allow
list for a registered pattern, namely every method registered for
exactly that pattern, with OPTIONS added. -/
def allowFor (routes : List (String × List Seg)) (p : List Seg) :
    List String :=
  let ms := ((routes.filter (fun r => r.2 == p)).map Prod.fst).dedup
  if ms.contains "OPTIONS" then ms else ms ++ ["OPTIONS"]

/-- The frozen routing table: the route set, the `handleOPTIONS` flag,
and the OPTIONS answers precomputed at freeze time. -/
structure FrozenRouter where
  routes : List (String × List Seg)
  handleOPTIONS : Bool
  optionsTable : List (List Seg × String)

/-- Modelled from the spec (§4.1 freeze; not in the provided source):
freezing precomputes, once, the OPTIONS answer of every registered
pattern — unless automatic OPTIONS handling is disabled. -/
def freezeRouter (routes : List (String × List Seg)) (auto : Bool) :
    FrozenRouter :=
  { routes := routes
    handleOPTIONS := auto
    optionsTable :=
      if auto then
        ((routes.map Prod.snd).dedup).map
          (fun p => (p, String.intercalate ", " (allowFor routes p)))
      else [] }

/-- The answer served to an OPTIONS request: the Allow value and the
middlewares that were run producing it. -/
structure OptionsAnswer where
  allow : String
  middlewaresRun : List Middleware
deriving DecidableEq

/-- Modelled from the spec (§4.1; not in the provided source): an OPTIONS
request is answered from the precomputed table alone, running no user
middleware. -/
def serveOPTIONS (fr : FrozenRouter) (path : List String) :
    Option OptionsAnswer :=
  match fr.optionsTable.find? (fun e => patternMatches e.1 path) with
  | some e => some ⟨e.2, []⟩
  | none => none

/-- Claim C8: with automatic OPTIONS handling enabled, every path with
at least one registered method is answered on OPTIONS from the table
precomputed at freeze time, reporting the allowed methods of a pattern
registered for that path and invoking no user middleware. -/
theorem c8_options_at_freeze (routes : List (String × List Seg))
    (path : List String) (h : ∃ r ∈ routes, patternMatches r.2 path = true) :
    ∃ q, q ∈ routes.map Prod.snd ∧ patternMatches q path = true ∧
      serveOPTIONS (freezeRouter routes true) path
        = some ⟨String.intercalate ", " (allowFor routes q), []⟩ := by
  obtain ⟨r, hr, hmatch⟩ := h
  cases hf : (freezeRouter routes true).optionsTable.find?
      (fun e => patternMatches e.1 path) with
  | none =>
    rw [List.find?_eq_none] at hf
    exfalso
    have h1 : r.2 ∈ routes.map Prod.snd := List.mem_map.mpr ⟨r, hr, rfl⟩
    have h2 : r.2 ∈ (routes.map Prod.snd).dedup := List.mem_dedup.mpr h1
    have h3 : (r.2, String.intercalate ", " (allowFor routes r.2))
        ∈ (freezeRouter routes true).optionsTable := by
      simp only [freezeRouter, if_true]
      exact List.mem_map.mpr ⟨r.2, h2, rfl⟩
    exact hf _ h3 (by simpa using hmatch)
  | some e =>
    have hp := List.find?_some hf
    have hmem := List.mem_of_find?_eq_some hf
    simp [freezeRouter] at hmem
    obtain ⟨q, hq, rfl⟩ := hmem
    obtain ⟨a, ha⟩ := hq
    refine ⟨q, List.mem_map.mpr ⟨(a, q), ha, rfl⟩, ?_, ?_⟩
    · simpa using hp
    · simp [serveOPTIONS, hf]

/-- Witness for C8: the path /users/42 with GET registered for
/users/\x7bid\x7d is answered on OPTIONS from the frozen table with no
middleware run. -/
theorem c8_options_at_freeze_witness :
    ∃ q, q ∈ ([("GET", [Seg.lit "users", Seg.param "id"])].map Prod.snd)
      ∧ patternMatches q ["users", "42"] = true
      ∧ serveOPTIONS
            (freezeRouter [("GET", [Seg.lit "users", Seg.param "id"])] true)
            ["users", "42"]
          = some ⟨String.intercalate ", "
              (allowFor [("GET", [Seg.lit "users", Seg.param "id"])] q), []⟩ :=
  c8_options_at_freeze [("GET", [Seg.lit "users", Seg.param "id"])]
    ["users", "42"] (by decide)

/-!
The `Atreugo` server value (`types.go`): it embeds `*Router`, so Go
method promotion makes every Router method invoked on the server act on
that single root Router, its other fields (engine, cfg, virtualHosts)
untouched.  The Router methods themselves (`UseBefore`, `UseAfter`,
`SkipMiddlewares`, route registration such as `GET`, and group creation)
are not in the provided source and are modelled from the spec (§4.1 and
§6, registration calls) and the example program.
-/

/-- The root Router state an `Atreugo` value embeds: its middleware
chain, its registered routes, and the child Routers created under it,
each recorded with its prefix and the middleware chain it inherited. -/
structure RouterM where
  middlewares : Middlewares
  paths : List (String × List Seg)
  groups : List (String × Middlewares)
deriving DecidableEq

/-- Modelled from the spec (§6 `useBefore`): append a before-middleware
to the Router's chain. -/
def RouterM.UseBefore (r : RouterM) (m : Middleware) : RouterM :=
  { r with middlewares :=
      { r.middlewares with Before := r.middlewares.Before ++ [m] } }

/-- Modelled from the spec (§6 `useAfter`): append an after-middleware
to the Router's chain. -/
def RouterM.UseAfter (r : RouterM) (m : Middleware) : RouterM :=
  { r with middlewares :=
      { r.middlewares with After := r.middlewares.After ++ [m] } }

/-- Modelled from the spec (§6 `skip`): append a middleware identity to
the Router's skip-list. -/
def RouterM.SkipMiddlewares (r : RouterM) (m : Middleware) : RouterM :=
  { r with middlewares :=
      { r.middlewares with Skip := r.middlewares.Skip ++ [m] } }

/-- Modelled from the spec (§6 `registerRoute`): register a GET route on
the Router. -/
def RouterM.GET (r : RouterM) (p : List Seg) : RouterM :=
  { r with paths := r.paths ++ [("GET", p)] }

/-- Modelled from the spec (§4.1 `group`, §6): create a child Router
under the given prefix; the child inherits the parent's middleware
chain. -/
def RouterM.NewGroupPath (r : RouterM) (gp : String) : RouterM :=
  { r with groups := r.groups ++ [(gp, r.middlewares)] }

/-- The `Atreugo` struct of `types.go`: server-only state plus the
embedded root Router. -/
structure AtreugoM where
  cfgAddr : String
  router : RouterM
deriving DecidableEq

/-- Go method promotion of the embedded `*Router`: `UseBefore` on the
server is `UseBefore` on the embedded root Router. -/
def AtreugoM.UseBefore (s : AtreugoM) (m : Middleware) : AtreugoM :=
  { s with router := s.router.UseBefore m }

/-- Go method promotion: `UseAfter` on the server acts on the root
Router. -/
def AtreugoM.UseAfter (s : AtreugoM) (m : Middleware) : AtreugoM :=
  { s with router := s.router.UseAfter m }

/-- Go method promotion: `SkipMiddlewares` on the server acts on the
root Router. -/
def AtreugoM.SkipMiddlewares (s : AtreugoM) (m : Middleware) : AtreugoM :=
  { s with router := s.router.SkipMiddlewares m }

/-- Go method promotion: `GET` on the server acts on the root Router. -/
def AtreugoM.GET (s : AtreugoM) (p : List Seg) : AtreugoM :=
  { s with router := s.router.GET p }

/-- Go method promotion: group creation on the server acts on the root
Router. -/
def AtreugoM.NewGroupPath (s : AtreugoM) (gp : String) : AtreugoM :=
  { s with router := s.router.NewGroupPath gp }

/-- Claim C9: every registration or middleware operation invoked on the
server value — route registration, group creation, UseBefore, UseAfter
and skip — equals the same operation on the embedded root Router and
leaves the server-only state unchanged; in particular the example
program's UseBefore / UseAfter / GET calls on the server all act on the
one root tree. -/
theorem c9_embedding (s : AtreugoM) (m m2 m3 : Middleware) (p : List Seg)
    (gp : String) :
    ((s.UseBefore m).router = s.router.UseBefore m
      ∧ (s.UseBefore m).cfgAddr = s.cfgAddr)
    ∧ ((s.UseAfter m).router = s.router.UseAfter m
      ∧ (s.UseAfter m).cfgAddr = s.cfgAddr)
    ∧ ((s.SkipMiddlewares m).router = s.router.SkipMiddlewares m
      ∧ (s.SkipMiddlewares m).cfgAddr = s.cfgAddr)
    ∧ ((s.GET p).router = s.router.GET p ∧ (s.GET p).cfgAddr = s.cfgAddr)
    ∧ ((s.NewGroupPath gp).router = s.router.NewGroupPath gp
      ∧ (s.NewGroupPath gp).cfgAddr = s.cfgAddr)
    ∧ (((((s.UseBefore m).UseAfter m2).SkipMiddlewares m3).NewGroupPath
          gp).GET p).router
        = ((((s.router.UseBefore m).UseAfter m2).SkipMiddlewares
              m3).NewGroupPath gp).GET p :=
  ⟨⟨rfl, rfl⟩, ⟨rfl, rfl⟩, ⟨rfl, rfl⟩, ⟨rfl, rfl⟩, ⟨rfl, rfl⟩, rfl⟩

/-!
TLS configuration cloning (`Config.TLSConfig` in `types.go`).  The doc
comment on the field states that the value is cloned by `Serve` when
`TLSEnable` is true; `Serve` itself is not in the provided source and is
modelled from that comment.  A shared mutable `tls.Config` is modelled
as a pointer into a heap of configuration values.
-/

/-- A TLS configuration value (the mutable fields the claim is about). -/
structure TLSConf where
  minVersion : Nat
  ticketKeys : List Nat
deriving DecidableEq

/-- A heap of TLS configuration values, indexed by pointer. -/
abbrev TLSHeap := Nat → TLSConf

/-- The running server's TLS state after `Serve` returned. -/
structure ServerTLS where
  tlsClone : Option TLSConf
deriving DecidableEq

/-- Modelled from the spec (the `Config.TLSConfig` doc comment in
`types.go`; `Serve` is not in the provided source): when TLSEnable is
true, `Serve` stores a clone of the configuration value the pointer
refers to, not the pointer. -/
def serveTLS (h : TLSHeap) (tlsEnable : Bool) (ptr : Nat) : ServerTLS :=
  { tlsClone := if tlsEnable then some (h ptr) else none }

/-- Mutate the heap cell a pointer refers to. -/
def heapSet (h : TLSHeap) (p : Nat) (v : TLSConf) : TLSHeap :=
  fun q => if q = p then v else h q

/-- The TLS behaviour of a running server is a function of its stored
clone only, whatever the heap holds now. -/
def ServerTLS.effectiveTLS (s : ServerTLS) (_current : TLSHeap) :
    Option TLSConf := s.tlsClone

/-- Claim C10: a server started with TLSEnable keeps the clone of the
caller's tls.Config taken by Serve; mutating the caller's value
afterwards leaves the running server's TLS behaviour unchanged. -/
theorem c10_tls_clone (h : TLSHeap) (ptr : Nat) (v : TLSConf) :
    (serveTLS h true ptr).effectiveTLS (heapSet h ptr v) = some (h ptr)
    ∧ ∀ h2 : TLSHeap,
        (serveTLS h true ptr).effectiveTLS h2
          = (serveTLS h true ptr).effectiveTLS h :=
  ⟨rfl, fun _ => rfl⟩
